import Mathlib

/-!
Verification of the interactive 3D placement editor of the Front-Pallet
application, embedded shallowly from:
  src/Front-Pallet/my-app/src/components/3DScene/models/MoveModel.tsx
  src/Front-Pallet/my-app/src/components/3DScene/Scene.tsx
  src/Front-Pallet/my-app/src/components/DetailSection.tsx
Numbers are modelled as rationals; the code's tuples [number, number, number]
become the structure V3.
-/

/-- A 3-vector of rationals, modelling the TypeScript tuples
[number, number, number]. -/
structure V3 where
  x : ℚ
  y : ℚ
  z : ℚ
deriving DecidableEq, Repr

/-- Indexed access, matching JavaScript array indexing v[0], v[1], v[2]. -/
def V3.nth (v : V3) : ℕ → ℚ
  | 0 => v.x
  | 1 => v.y
  | _ => v.z

/-- Componentwise subtraction. -/
def vsub (a b : V3) : V3 := ⟨a.x - b.x, a.y - b.y, a.z - b.z⟩

/-- Componentwise addition. -/
def vadd (a b : V3) : V3 := ⟨a.x + b.x, a.y + b.y, a.z + b.z⟩

/-- Componentwise halving, as in the dim / 2 expressions of MoveModel. -/
def vhalf (a : V3) : V3 := ⟨a.x / 2, a.y / 2, a.z / 2⟩

/-- interface SimProduct of DetailSection.tsx (lines 585-604); the constant
discriminant field mastertype: 'product' is encoded by the SimBox/Detail
constructors below. -/
structure SimProduct where
  batchdetailid : ℕ
  masterid : ℕ
  code : String
  name : String
  length : ℚ
  width : ℚ
  height : ℚ
  maxstack : ℕ
  isfragile : Bool
  istop : Bool
  notstack : Bool
  issideUp : Bool
  color : String
  position : V3
  rotation : ℕ
  no : Option ℕ
  qtt : ℕ
deriving DecidableEq, Repr

/-- interface SimOrder of DetailSection.tsx (lines 624-630); its
mastertype is undefined, encoded by the Detail.ord constructor. -/
structure SimOrder where
  orderid : ℕ
  ordername : String
  ordernumber : String
  products : List SimProduct
deriving DecidableEq, Repr

/-- interface SimPallet of DetailSection.tsx (lines 606-622); the constant
discriminant mastertype: 'sim_batch' is encoded by the constructors below. -/
structure SimPallet where
  batchdetailid : ℕ
  masterid : ℕ
  code : String
  name : String
  length : ℚ
  width : ℚ
  height : ℚ
  loadlength : ℚ
  loadwidth : ℚ
  loadheight : ℚ
  color : String
  position : V3
  rotation : ℕ
  orders : List SimOrder
deriving DecidableEq, Repr

/-- One entry of SimBatch.details : (SimOrder | SimPallet)[]. -/
inductive Detail where
  | ord (o : SimOrder)
  | pal (p : SimPallet)
deriving DecidableEq, Repr

/-- The batch type tag 'pallet' | 'container'. -/
inductive BatchType where
  | pallet
  | container
deriving DecidableEq, Repr

/-- interface SimBatch of DetailSection.tsx (lines 632-645). -/
structure SimBatch where
  batchid : ℕ
  batchname : String
  batchtype : BatchType
  length : ℚ
  width : ℚ
  height : ℚ
  loadlength : ℚ
  loadwidth : ℚ
  loadheight : ℚ
  color : String
  details : List Detail
deriving DecidableEq, Repr

/-- type SimBox = SimPallet | SimProduct of MoveModel.tsx (line 6): the
union handled by MoveModel, Scene.setItem and the flattened item list. -/
inductive SimBox where
  | prod (p : SimProduct)
  | pal (p : SimPallet)
deriving DecidableEq, Repr

/-- Field access item.batchdetailid on the union. -/
def SimBox.batchdetailid : SimBox → ℕ
  | .prod p => p.batchdetailid
  | .pal p => p.batchdetailid

/-- Field access item.length on the union. -/
def SimBox.length : SimBox → ℚ
  | .prod p => p.length
  | .pal p => p.length

/-- Field access item.width on the union. -/
def SimBox.width : SimBox → ℚ
  | .prod p => p.width
  | .pal p => p.width

/-- Field access item.height on the union. -/
def SimBox.height : SimBox → ℚ
  | .prod p => p.height
  | .pal p => p.height

/-- Field access item.position on the union. -/
def SimBox.position : SimBox → V3
  | .prod p => p.position
  | .pal p => p.position

/-- Field access item.rotation on the union.  The TypeScript type of the
field is the union 0|1|2|3|4|5; it is modelled as a natural number, and
every theorem about it carries the bound from that type. -/
def SimBox.rotation : SimBox → ℕ
  | .prod p => p.rotation
  | .pal p => p.rotation

/-- The conditional item.mastertype === "sim_batch" ? item.loadheight : 0
of MoveModel.tsx line 10. -/
def SimBox.loadHeightOf : SimBox → ℚ
  | .prod _ => 0
  | .pal p => p.loadheight

/-- getRotDim of MoveModel.tsx (lines 9-28): the switch on item.rotation,
whose default branch coincides with case 0. -/
def getRotDim (item : SimBox) : V3 :=
  let lh := item.loadHeightOf
  match item.rotation with
  | 0 => ⟨item.length, item.height + lh, item.width⟩
  | 1 => ⟨item.width, item.height + lh, item.length⟩
  | 2 => ⟨item.height + lh, item.length, item.width⟩
  | 3 => ⟨item.width, item.length, item.height + lh⟩
  | 4 => ⟨item.length, item.width, item.height + lh⟩
  | 5 => ⟨item.height + lh, item.width, item.length⟩
  | _ => ⟨item.length, item.height + lh, item.width⟩

/-- The props and closed-over state a MoveModel instance carries while
resolving a drag: renderScale and contSize come from the props
(Scene.tsx passes contSize = [loadlength, loadheight, loadwidth]),
data is the selected (dragged) item, and matrixPos is the position
currently stored in the drag matrix (boxPos at mount, thereafter the
last position written by onDrag). -/
structure Ctx where
  renderScale : ℚ
  contSize : V3
  data : SimBox
  matrixPos : V3

/-- adjustScale of MoveModel.tsx (lines 47-49): divide every component by
renderScale. -/
def adjustScale (c : Ctx) (v : V3) : V3 :=
  ⟨v.x / c.renderScale, v.y / c.renderScale, v.z / c.renderScale⟩

/-- readjustScale of MoveModel.tsx (lines 51-53): multiply every component
by renderScale. -/
def readjustScale (c : Ctx) (v : V3) : V3 :=
  ⟨v.x * c.renderScale, v.y * c.renderScale, v.z * c.renderScale⟩

/-- adjustPos of MoveModel.tsx (lines 56-62). -/
def adjustPos (c : Ctx) (pos size : V3) : V3 :=
  ⟨pos.x + (size.x - c.contSize.x) / 2,
   pos.y + size.y / 2,
   pos.z + (size.z - c.contSize.z) / 2⟩

/-- readjustPos of MoveModel.tsx (lines 64-70). -/
def readjustPos (c : Ctx) (pos size : V3) : V3 :=
  ⟨pos.x - (size.x - c.contSize.x) / 2,
   pos.y - size.y / 2,
   pos.z - (size.z - c.contSize.z) / 2⟩

/-- The index swizzle [p[0], p[2], p[1]] applied to stored positions
before adjustPos (MoveModel.tsx lines 76-80 and 119). -/
def swizzle (p : V3) : V3 := ⟨p.x, p.z, p.y⟩

/-- boxOrien of MoveModel.tsx (line 74). -/
def boxOrien (c : Ctx) : V3 := adjustScale c (getRotDim c.data)

/-- boxPos of MoveModel.tsx (lines 75-82). -/
def boxPos (c : Ctx) : V3 :=
  adjustScale c (adjustPos c (swizzle c.data.position) (getRotDim c.data))

/-- adjustedContSize of MoveModel.tsx (line 102). -/
def adjustedContSize (c : Ctx) : V3 := adjustScale c c.contSize

/-- pallet_min of MoveModel.tsx (line 104). -/
def palletMin (c : Ctx) : V3 :=
  ⟨((boxOrien c).x - (adjustedContSize c).x) / 2,
   (boxOrien c).y / 2,
   ((boxOrien c).z - (adjustedContSize c).z) / 2⟩

/-- pallet_max of MoveModel.tsx (line 105). -/
def palletMax (c : Ctx) : V3 :=
  ⟨((adjustedContSize c).x - (boxOrien c).x) / 2,
   (adjustedContSize c).y - (boxOrien c).y / 2,
   ((adjustedContSize c).z - (boxOrien c).z) / 2⟩

/-- pallet_minmax of MoveModel.tsx (line 109), indexed 0..5. -/
def palletMinmax (c : Ctx) : ℕ → ℚ
  | 0 => (palletMin c).x
  | 1 => (palletMax c).x
  | 2 => (palletMin c).y
  | 3 => (palletMax c).y
  | 4 => (palletMin c).z
  | _ => (palletMax c).z

/-- The world-space centre of another item as computed inside getNewPos
(MoveModel.tsx lines 119 and 136). -/
def itemBoxPos (c : Ctx) (b : SimBox) : V3 :=
  adjustScale c (adjustPos c (swizzle b.position) (getRotDim b))

/-- box_min of an obstacle (MoveModel.tsx lines 120 and 137). -/
def itemBoxMin (c : Ctx) (b : SimBox) : V3 :=
  vsub (itemBoxPos c b) (vhalf (adjustScale c (getRotDim b)))

/-- box_max of an obstacle (MoveModel.tsx lines 121 and 138). -/
def itemBoxMax (c : Ctx) (b : SimBox) : V3 :=
  vadd (itemBoxPos c b) (vhalf (adjustScale c (getRotDim b)))

/-- The AABB intersection test of MoveModel.tsx lines 122-126 (negated
separation test with non-strict comparisons, so touching faces do not
count as intersection). -/
def intersectsB (pMin pMax bMin bMax : V3) : Bool :=
  !((decide (bMin.x ≥ pMax.x) || decide (pMin.x ≥ bMax.x)) ||
    (decide (bMin.y ≥ pMax.y) || decide (pMin.y ≥ bMax.y)) ||
    (decide (bMin.z ≥ pMax.z) || decide (pMin.z ≥ bMax.z)))

/-- The per-box test of the scanning reduce in getNewPos (MoveModel.tsx
lines 116-129): the box counts when its batchdetailid differs from the
dragged item's and its AABB intersects the candidate AABB. -/
def scanPred (c : Ctx) (pMin pMax : V3) (b : SimBox) : Bool :=
  !(decide (b.batchdetailid = c.data.batchdetailid)) &&
    intersectsB pMin pMax (itemBoxMin c b) (itemBoxMax c b)

/-- The reduce of MoveModel.tsx lines 116-131: every matching element
overwrites the accumulator, so the result is the last matching element
together with its index. -/
def lastHit (p : SimBox → Bool) : List SimBox → Option (ℕ × SimBox)
  | [] => none
  | b :: bs =>
    match lastHit p bs with
    | some (i, x) => some (i + 1, x)
    | none => if p b then some (0, b) else none

/-- An index returned by lastHit is a valid index of the scanned list. -/
theorem lastHit_some_lt {p : SimBox → Bool} :
    ∀ {l : List SimBox} {i : ℕ} {b : SimBox},
      lastHit p l = some (i, b) → i < l.length := by
  intro l
  induction l with
  | nil => intro i b h; simp [lastHit] at h
  | cons a t ih =>
    intro i b h
    simp only [lastHit] at h
    cases hl : lastHit p t with
    | some ib =>
      obtain ⟨j, x⟩ := ib
      rw [hl] at h
      simp only [Option.some.injEq, Prod.mk.injEq] at h
      have := ih hl
      simp only [List.length_cons]
      omega
    | none =>
      rw [hl] at h
      by_cases hp : p a
      · simp [hp] at h
        simp only [List.length_cons]
        omega
      · simp [hp] at h

/-- adjustedPos of MoveModel.tsx (lines 140-143): the six candidate centre
coordinates that place the dragged box flush against each face of the
obstacle box. -/
def adjPosFace (c : Ctx) (bMin bMax : V3) : ℕ → ℚ
  | 0 => bMin.x - (boxOrien c).x / 2
  | 1 => bMax.x + (boxOrien c).x / 2
  | 2 => bMin.y - (boxOrien c).y / 2
  | 3 => bMax.y + (boxOrien c).y / 2
  | 4 => bMin.z - (boxOrien c).z / 2
  | _ => bMax.z + (boxOrien c).z / 2

/-- The six penetration depths of MoveModel.tsx (lines 145-148). -/
def interFace (pMin pMax bMin bMax : V3) : ℕ → ℚ
  | 0 => pMax.x - bMin.x
  | 1 => bMax.x - pMin.x
  | 2 => pMax.y - bMin.y
  | 3 => bMax.y - pMin.y
  | 4 => pMax.z - bMin.z
  | _ => bMax.z - pMin.z

/-- One step of the reduce of MoveModel.tsx lines 149-164: skip a face
whose axis has already been corrected away from the raw target, skip a
face whose candidate position leaves the container bounds, otherwise
keep the pair with the smallest positive penetration (the first
surviving pair is kept unconditionally). -/
def minInterStep (c : Ctx) (posArr newPos bMin bMax pMin pMax : V3)
    (ret : Option (ℕ × ℚ)) (id : ℕ) : Option (ℕ × ℚ) :=
  if newPos.nth (id / 2) ≠ posArr.nth (id / 2) then ret
  else if id % 2 = 0 ∧ palletMinmax c id > adjPosFace c bMin bMax id then ret
  else if id % 2 = 1 ∧ palletMinmax c id < adjPosFace c bMin bMax id then ret
  else
    match ret with
    | none => some (id, interFace pMin pMax bMin bMax id)
    | some (rid, rint) =>
      if interFace pMin pMax bMin bMax id > 0 ∧ rint > interFace pMin pMax bMin bMax id
      then some (id, interFace pMin pMax bMin bMax id)
      else some (rid, rint)

/-- min_intersection of MoveModel.tsx (lines 145-164): the reduce over the
six face indices in order. -/
def minInter (c : Ctx) (posArr newPos bMin bMax pMin pMax : V3) : Option (ℕ × ℚ) :=
  (List.range 6).foldl (minInterStep c posArr newPos bMin bMax pMin pMax) none

/-- tempPosArray of MoveModel.tsx (lines 168-173): replace the component
on the corrected axis by the chosen candidate coordinate. -/
def tempPos (c : Ctx) (bMin bMax newPos : V3) (fid : ℕ) : V3 :=
  ⟨if fid / 2 = 0 then adjPosFace c bMin bMax fid else newPos.x,
   if fid / 2 = 1 then adjPosFace c bMin bMax fid else newPos.y,
   if fid / 2 = 2 then adjPosFace c bMin bMax fid else newPos.z⟩

/-- getNewPos of MoveModel.tsx (lines 111-177), after the defaulting of
newPosArray on line 112; posArr is the raw drag target PosArray and
newPos the working position newPosArray.  Both recursive calls drop the
obstacle from the scanned list, so the list length decreases. -/
def getNewPos (c : Ctx) (boxes : List SimBox) (posArr newPos : V3) : V3 :=
  let pMin := vsub newPos (vhalf (boxOrien c))
  let pMax := vadd newPos (vhalf (boxOrien c))
  match h : lastHit (scanPred c pMin pMax) boxes with
  | none => newPos
  | some (idx, ib) =>
    let bMin := itemBoxMin c ib
    let bMax := itemBoxMax c ib
    match minInter c posArr newPos bMin bMax pMin pMax with
    | none => getNewPos c (boxes.eraseIdx idx) posArr c.matrixPos
    | some (fid, _) => getNewPos c (boxes.eraseIdx idx) posArr (tempPos c bMin bMax newPos fid)
termination_by boxes.length
decreasing_by
  · have hlt := lastHit_some_lt h
    rw [List.length_eraseIdx]
    simp [hlt]
    omega
  · have hlt := lastHit_some_lt h
    rw [List.length_eraseIdx]
    simp [hlt]
    omega

/-- The entry call getNewPos(allBoxes, newPosArray) of MoveModel.tsx line
188, where the missing third argument defaults to the target itself
(line 112). -/
def getNewPos0 (c : Ctx) (boxes : List SimBox) (posArr : V3) : V3 :=
  getNewPos c boxes posArr posArr

/-- Fuel-indexed variant of getNewPos that returns none when the fuel is
exhausted before a recursive call can be made; used to state that the
recursion depth of getNewPos is bounded by the length of the item list. -/
def getNewPosO (c : Ctx) (fuel : ℕ) (boxes : List SimBox) (posArr newPos : V3) : Option V3 :=
  match lastHit (scanPred c (vsub newPos (vhalf (boxOrien c))) (vadd newPos (vhalf (boxOrien c)))) boxes with
  | none => some newPos
  | some (idx, ib) =>
    match fuel with
    | 0 => none
    | f + 1 =>
      match minInter c posArr newPos (itemBoxMin c ib) (itemBoxMax c ib) (vsub newPos (vhalf (boxOrien c))) (vadd newPos (vhalf (boxOrien c))) with
      | none => getNewPosO c f (boxes.eraseIdx idx) posArr c.matrixPos
      | some (fid, _) => getNewPosO c f (boxes.eraseIdx idx) posArr (tempPos c (itemBoxMin c ib) (itemBoxMax c ib) newPos fid)

/-- The scanning reduce returns nothing exactly when no box passes its
test. -/
theorem lastHit_none_iff {p : SimBox → Bool} :
    ∀ {l : List SimBox}, lastHit p l = none ↔ ∀ b ∈ l, p b = false := by
  intro l
  induction l with
  | nil => simp [lastHit]
  | cons a t ih =>
    cases hl : lastHit p t with
    | some ib =>
      obtain ⟨i, x⟩ := ib
      simp only [lastHit, hl]
      constructor
      · intro h; cases h
      · intro h
        have ht : lastHit p t = none := ih.mpr (fun b hb => h b (List.mem_cons_of_mem _ hb))
        rw [hl] at ht; cases ht
    | none =>
      simp only [lastHit, hl]
      by_cases hp : p a
      · constructor
        · intro h; rw [if_pos hp] at h; cases h
        · intro h; exact absurd (h a (List.mem_cons_self a t)) (by rw [hp]; simp)
      · rw [if_neg hp]
        constructor
        · intro _ b hb
          rcases List.mem_cons.mp hb with rfl | hbt
          · exact Bool.eq_false_iff.mpr hp
          · exact ih.mp hl b hbt
        · intro _; rfl

/-- A box returned by the scanning reduce is a member of the list and
passes the test. -/
theorem lastHit_some_mem {p : SimBox → Bool} :
    ∀ {l : List SimBox} {i : ℕ} {b : SimBox},
      lastHit p l = some (i, b) → b ∈ l ∧ p b = true := by
  intro l
  induction l with
  | nil => intro i b h; simp [lastHit] at h
  | cons a t ih =>
    intro i b h
    simp only [lastHit] at h
    cases hl : lastHit p t with
    | some ib =>
      obtain ⟨j, x⟩ := ib
      rw [hl] at h
      simp only [Option.some.injEq, Prod.mk.injEq] at h
      obtain ⟨-, rfl⟩ := h
      exact ⟨List.mem_cons_of_mem _ (ih hl).1, (ih hl).2⟩
    | none =>
      rw [hl] at h
      by_cases hp : p a
      · rw [if_pos hp] at h
        simp only [Option.some.injEq, Prod.mk.injEq] at h
        obtain ⟨-, rfl⟩ := h
        exact ⟨List.mem_cons_self a t, hp⟩
      · rw [if_neg hp] at h; cases h

/-- The scanning reduce returns the last passing box: every later index
fails the test. -/
theorem lastHit_is_last {p : SimBox → Bool} :
    ∀ {l : List SimBox} {i : ℕ} {b : SimBox},
      lastHit p l = some (i, b) →
      ∀ j (hj : j < l.length), i < j → p (l.get ⟨j, hj⟩) = false := by
  intro l
  induction l with
  | nil => intro i b h; simp [lastHit] at h
  | cons a t ih =>
    intro i b h j hj hij
    simp only [lastHit] at h
    cases hl : lastHit p t with
    | some ib =>
      obtain ⟨k, x⟩ := ib
      rw [hl] at h
      simp only [Option.some.injEq, Prod.mk.injEq] at h
      obtain ⟨rfl, rfl⟩ := h
      match j, hj with
      | 0, _ => omega
      | j' + 1, hj' =>
        exact ih hl j' (by simpa using hj') (by omega)
    | none =>
      rw [hl] at h
      by_cases hp : p a
      · rw [if_pos hp] at h
        simp only [Option.some.injEq, Prod.mk.injEq] at h
        obtain ⟨rfl, rfl⟩ := h
        match j, hj with
        | 0, _ => omega
        | j' + 1, hj' =>
          exact lastHit_none_iff.mp hl _ (List.get_mem t j' (by simpa using hj'))
      · rw [if_neg hp] at h; cases h

/-- The scanning reduce returns a box at its reported index. -/
theorem lastHit_get {p : SimBox → Bool} :
    ∀ {l : List SimBox} {i : ℕ} {b : SimBox} (h : lastHit p l = some (i, b)),
      l.get ⟨i, lastHit_some_lt h⟩ = b := by
  intro l
  induction l with
  | nil => intro i b h; simp [lastHit] at h
  | cons a t ih =>
    intro i b h
    have h' := h
    simp only [lastHit] at h'
    cases hl : lastHit p t with
    | some ib =>
      obtain ⟨j, x⟩ := ib
      rw [hl] at h'
      simp only [Option.some.injEq, Prod.mk.injEq] at h'
      obtain ⟨rfl, rfl⟩ := h'
      simpa using ih hl
    | none =>
      rw [hl] at h'
      by_cases hp : p a
      · rw [if_pos hp] at h'
        simp only [Option.some.injEq, Prod.mk.injEq] at h'
        obtain ⟨rfl, rfl⟩ := h'
        rfl
      · rw [if_neg hp] at h'; cases h'

/-- The position pos is collision-free for the dragged item of c against
every box of the list, in the exact sense of the scanning test of
getNewPos (a box with the dragged item's own id never counts). -/
def SafeAt (c : Ctx) (pos : V3) (boxes : List SimBox) : Prop :=
  ∀ b ∈ boxes, scanPred c (vsub pos (vhalf (boxOrien c))) (vadd pos (vhalf (boxOrien c))) b = false

instance (c : Ctx) (pos : V3) (boxes : List SimBox) : Decidable (SafeAt c pos boxes) := by
  unfold SafeAt; infer_instance

/-- Base-case unfolding of getNewPos: an empty scan returns the working
position unchanged. -/
theorem getNewPos_of_scan_none {c : Ctx} {boxes : List SimBox} {posArr newPos : V3}
    (h : lastHit (scanPred c (vsub newPos (vhalf (boxOrien c))) (vadd newPos (vhalf (boxOrien c)))) boxes = none) :
    getNewPos c boxes posArr newPos = newPos := by
  rw [getNewPos.eq_def]
  simp only []
  rw [h]

/-- Fallback unfolding of getNewPos: when every face-correction candidate
is filtered out, the obstacle is dropped and the working position is
reset to the matrix position. -/
theorem getNewPos_of_minInter_none {c : Ctx} {boxes : List SimBox} {posArr newPos : V3}
    {idx : ℕ} {ib : SimBox}
    (h : lastHit (scanPred c (vsub newPos (vhalf (boxOrien c))) (vadd newPos (vhalf (boxOrien c)))) boxes = some (idx, ib))
    (hm : minInter c posArr newPos (itemBoxMin c ib) (itemBoxMax c ib) (vsub newPos (vhalf (boxOrien c))) (vadd newPos (vhalf (boxOrien c))) = none) :
    getNewPos c boxes posArr newPos = getNewPos c (boxes.eraseIdx idx) posArr c.matrixPos := by
  rw [getNewPos.eq_def]
  simp only []
  rw [h]
  simp only []
  rw [hm]

/-- Correction unfolding of getNewPos: the chosen face coordinate is
written into the working position and the obstacle is dropped from the
list passed to the recursive call. -/
theorem getNewPos_of_minInter_some {c : Ctx} {boxes : List SimBox} {posArr newPos : V3}
    {idx : ℕ} {ib : SimBox} {fid : ℕ} {v : ℚ}
    (h : lastHit (scanPred c (vsub newPos (vhalf (boxOrien c))) (vadd newPos (vhalf (boxOrien c)))) boxes = some (idx, ib))
    (hm : minInter c posArr newPos (itemBoxMin c ib) (itemBoxMax c ib) (vsub newPos (vhalf (boxOrien c))) (vadd newPos (vhalf (boxOrien c))) = some (fid, v)) :
    getNewPos c boxes posArr newPos = getNewPos c (boxes.eraseIdx idx) posArr (tempPos c (itemBoxMin c ib) (itemBoxMax c ib) newPos fid) := by
  rw [getNewPos.eq_def]
  simp only []
  rw [h]
  simp only []
  rw [hm]

/-- A collision-free working position is returned unchanged. -/
theorem getNewPos_of_safe {c : Ctx} {boxes : List SimBox} {posArr newPos : V3}
    (h : SafeAt c newPos boxes) :
    getNewPos c boxes posArr newPos = newPos :=
  getNewPos_of_scan_none (lastHit_none_iff.mpr h)

/-- The AABB test in positive form: intersection holds exactly when the
boxes overlap strictly on all three axes. -/
theorem intersectsB_iff {pMin pMax bMin bMax : V3} :
    intersectsB pMin pMax bMin bMax = true ↔
      (bMin.x < pMax.x ∧ pMin.x < bMax.x) ∧ (bMin.y < pMax.y ∧ pMin.y < bMax.y) ∧
        (bMin.z < pMax.z ∧ pMin.z < bMax.z) := by
  simp only [intersectsB, Bool.not_eq_true', Bool.or_eq_false_iff, decide_eq_false_iff_not, not_le]
  tauto

/-- Every member of a list is the element at a given index or a member of
the list with that index erased. -/
theorem mem_eq_get_or_mem_eraseIdx :
    ∀ {l : List SimBox} {i : ℕ} (hi : i < l.length) {b : SimBox},
      b ∈ l → b = l.get ⟨i, hi⟩ ∨ b ∈ l.eraseIdx i := by
  intro l
  induction l with
  | nil => intro i hi; simp at hi
  | cons a t ih =>
    intro i hi b hb
    cases i with
    | zero =>
      rcases List.mem_cons.mp hb with rfl | h
      · exact Or.inl rfl
      · exact Or.inr (by simpa [List.eraseIdx] using h)
    | succ m =>
      rcases List.mem_cons.mp hb with rfl | h
      · exact Or.inr (by simp [List.eraseIdx])
      · rcases ih (by simpa using hi) h with heq | hm
        · exact Or.inl (by simpa using heq)
        · exact Or.inr (by simp [List.eraseIdx, hm])

/-- Any face index chosen by the min_intersection reduce lies in 0..5 and
passed the first filter: the working position still agrees with the raw
target on that axis. -/
theorem minInter_some_prop {c : Ctx} {posArr newPos bMin bMax pMin pMax : V3} {fid : ℕ} {v : ℚ}
    (h : minInter c posArr newPos bMin bMax pMin pMax = some (fid, v)) :
    fid < 6 ∧ newPos.nth (fid / 2) = posArr.nth (fid / 2) := by
  have key : ∀ (ids : List ℕ) (acc : Option (ℕ × ℚ)),
      (∀ i ∈ ids, i < 6) →
      (∀ r w, acc = some (r, w) → r < 6 ∧ newPos.nth (r / 2) = posArr.nth (r / 2)) →
      ∀ r w, ids.foldl (minInterStep c posArr newPos bMin bMax pMin pMax) acc = some (r, w) →
        r < 6 ∧ newPos.nth (r / 2) = posArr.nth (r / 2) := by
    intro ids
    induction ids with
    | nil => intro acc _ hacc r w hfold; exact hacc r w hfold
    | cons i t ih =>
      intro acc hmem hacc r w hfold
      refine ih _ (fun j hj => hmem j (List.mem_cons_of_mem _ hj)) ?_ r w hfold
      intro r' w' hstep
      unfold minInterStep at hstep
      by_cases h1 : newPos.nth (i / 2) ≠ posArr.nth (i / 2)
      · rw [if_pos h1] at hstep; exact hacc _ _ hstep
      · rw [if_neg h1] at hstep
        push_neg at h1
        by_cases h2 : i % 2 = 0 ∧ palletMinmax c i > adjPosFace c bMin bMax i
        · rw [if_pos h2] at hstep; exact hacc _ _ hstep
        · rw [if_neg h2] at hstep
          by_cases h3 : i % 2 = 1 ∧ palletMinmax c i < adjPosFace c bMin bMax i
          · rw [if_pos h3] at hstep; exact hacc _ _ hstep
          · rw [if_neg h3] at hstep
            have hi6 : i < 6 := hmem i (List.mem_cons_self _ _)
            cases haccv : acc with
            | none =>
              rw [haccv] at hstep
              simp only [Option.some.injEq, Prod.mk.injEq] at hstep
              obtain ⟨rfl, -⟩ := hstep
              exact ⟨hi6, h1⟩
            | some rw0 =>
              obtain ⟨r0, w0⟩ := rw0
              rw [haccv] at hstep
              simp only at hstep
              by_cases h4 : interFace pMin pMax bMin bMax i > 0 ∧ w0 > interFace pMin pMax bMin bMax i
              · rw [if_pos h4] at hstep
                simp only [Option.some.injEq, Prod.mk.injEq] at hstep
                obtain ⟨rfl, -⟩ := hstep
                exact ⟨hi6, h1⟩
              · rw [if_neg h4] at hstep
                simp only [Option.some.injEq, Prod.mk.injEq] at hstep
                obtain ⟨rfl, -⟩ := hstep
                exact hacc r0 w0 haccv
  exact key (List.range 6) none (fun i hi => List.mem_range.mp hi) (by simp) fid v h

/-- A position flush against the chosen obstacle face on the corrected
axis does not intersect the obstacle box. -/
theorem flush_no_intersect {c : Ctx} {bMin bMax pos : V3} {fid : ℕ} (hf : fid < 6)
    (hx : pos.nth (fid / 2) = adjPosFace c bMin bMax fid) :
    intersectsB (vsub pos (vhalf (boxOrien c))) (vadd pos (vhalf (boxOrien c))) bMin bMax = false := by
  rw [Bool.eq_false_iff]
  intro hT
  rw [intersectsB_iff] at hT
  obtain ⟨⟨h1, h2⟩, ⟨h3, h4⟩, h5, h6⟩ := hT
  simp only [vsub, vadd, vhalf] at h1 h2 h3 h4 h5 h6
  interval_cases fid <;> simp [V3.nth, adjPosFace] at hx <;> linarith

/-- When the working box strictly intersects the obstacle, every flush
face coordinate differs from the working coordinate on its axis. -/
theorem adjPosFace_ne_of_intersect {c : Ctx} {bMin bMax newPos : V3} {fid : ℕ} (hf : fid < 6)
    (hT : intersectsB (vsub newPos (vhalf (boxOrien c))) (vadd newPos (vhalf (boxOrien c))) bMin bMax = true) :
    adjPosFace c bMin bMax fid ≠ newPos.nth (fid / 2) := by
  rw [intersectsB_iff] at hT
  obtain ⟨⟨h1, h2⟩, ⟨h3, h4⟩, h5, h6⟩ := hT
  simp only [vsub, vadd, vhalf] at h1 h2 h3 h4 h5 h6
  interval_cases fid <;> simp only [V3.nth, adjPosFace] <;> intro heq <;> linarith

/-- On the corrected axis the corrected position carries the chosen flush
face coordinate. -/
theorem tempPos_nth_axis {c : Ctx} {bMin bMax newPos : V3} {fid : ℕ} (hf : fid < 6) :
    (tempPos c bMin bMax newPos fid).nth (fid / 2) = adjPosFace c bMin bMax fid := by
  interval_cases fid <;> simp [tempPos, V3.nth]

/-- On every other axis the corrected position keeps the working
coordinate. -/
theorem tempPos_nth_other {c : Ctx} {bMin bMax newPos : V3} {fid k : ℕ} (hk : k < 3)
    (hne : k ≠ fid / 2) :
    (tempPos c bMin bMax newPos fid).nth k = newPos.nth k := by
  interval_cases k <;> simp only [tempPos, V3.nth] <;>
    rw [if_neg (fun hc => hne hc.symm)]

/-- Main invariant of the resolver: if the matrix (current) position is
collision-free for the scanned list, then the resolved position is
collision-free for that same list, and moreover the result either is the
matrix position or agrees with the working position on every axis the
working position had already moved away from the raw target. -/
theorem getNewPos_safe_main (c : Ctx) :
    ∀ (n : ℕ) (boxes : List SimBox), boxes.length ≤ n → ∀ (posArr newPos : V3),
      SafeAt c c.matrixPos boxes →
      SafeAt c (getNewPos c boxes posArr newPos) boxes ∧
        (getNewPos c boxes posArr newPos = c.matrixPos ∨
          ∀ k, k < 3 → newPos.nth k ≠ posArr.nth k →
            (getNewPos c boxes posArr newPos).nth k = newPos.nth k) := by
  intro n
  induction n with
  | zero =>
    intro boxes hlen posArr newPos _
    have hnil : boxes = [] := List.length_eq_zero.mp (Nat.le_zero.mp hlen)
    subst hnil
    have hscan : lastHit (scanPred c (vsub newPos (vhalf (boxOrien c))) (vadd newPos (vhalf (boxOrien c)))) [] = none := rfl
    rw [getNewPos_of_scan_none hscan]
    exact ⟨fun b hb => absurd hb (List.not_mem_nil b), Or.inr (fun k _ _ => rfl)⟩
  | succ n ih =>
    intro boxes hlen posArr newPos hS
    cases hscan : lastHit (scanPred c (vsub newPos (vhalf (boxOrien c))) (vadd newPos (vhalf (boxOrien c)))) boxes with
    | none =>
      rw [getNewPos_of_scan_none hscan]
      exact ⟨lastHit_none_iff.mp hscan, Or.inr (fun k _ _ => rfl)⟩
    | some pair =>
      obtain ⟨idx, ib⟩ := pair
      have hidx : idx < boxes.length := lastHit_some_lt hscan
      have hmem := lastHit_some_mem hscan
      have hib_get : boxes.get ⟨idx, hidx⟩ = ib := lastHit_get hscan
      have hlen' : (boxes.eraseIdx idx).length ≤ n := by
        rw [List.length_eraseIdx]
        simp only [if_pos hidx]
        omega
      have hSsub : SafeAt c c.matrixPos (boxes.eraseIdx idx) :=
        fun b hb => hS b (List.mem_of_mem_eraseIdx hb)
      cases hmin : minInter c posArr newPos (itemBoxMin c ib) (itemBoxMax c ib)
          (vsub newPos (vhalf (boxOrien c))) (vadd newPos (vhalf (boxOrien c))) with
      | none =>
        rw [getNewPos_of_minInter_none hscan hmin]
        rw [getNewPos_of_safe hSsub]
        exact ⟨hS, Or.inl rfl⟩
      | some pr =>
        obtain ⟨fid, v⟩ := pr
        rw [getNewPos_of_minInter_some hscan hmin]
        obtain ⟨hf6, haxis⟩ := minInter_some_prop hmin
        obtain ⟨ihS, ihD⟩ := ih (boxes.eraseIdx idx) hlen' posArr
          (tempPos c (itemBoxMin c ib) (itemBoxMax c ib) newPos fid) hSsub
        have hsp : scanPred c (vsub newPos (vhalf (boxOrien c))) (vadd newPos (vhalf (boxOrien c))) ib = true := hmem.2
        have hint : intersectsB (vsub newPos (vhalf (boxOrien c))) (vadd newPos (vhalf (boxOrien c)))
            (itemBoxMin c ib) (itemBoxMax c ib) = true := by
          unfold scanPred at hsp
          exact ((Bool.and_eq_true _ _).mp hsp).2
        have hadj_ne : adjPosFace c (itemBoxMin c ib) (itemBoxMax c ib) fid ≠ newPos.nth (fid / 2) :=
          adjPosFace_ne_of_intersect hf6 hint
        have htp_axis : (tempPos c (itemBoxMin c ib) (itemBoxMax c ib) newPos fid).nth (fid / 2)
            = adjPosFace c (itemBoxMin c ib) (itemBoxMax c ib) fid := tempPos_nth_axis hf6
        have htp_ne : (tempPos c (itemBoxMin c ib) (itemBoxMax c ib) newPos fid).nth (fid / 2)
            ≠ posArr.nth (fid / 2) := by
          rw [htp_axis, ← haxis]
          exact hadj_ne
        have hf2 : fid / 2 < 3 := by omega
        constructor
        · intro b hb
          rcases mem_eq_get_or_mem_eraseIdx hidx hb with heq | hm
          · rw [hib_get] at heq
            subst heq
            rcases ihD with hRm | hRk
            · rw [hRm]
              exact hS b hb
            · have hflush : (getNewPos c (boxes.eraseIdx idx) posArr
                  (tempPos c (itemBoxMin c b) (itemBoxMax c b) newPos fid)).nth (fid / 2)
                  = adjPosFace c (itemBoxMin c b) (itemBoxMax c b) fid := by
                rw [hRk (fid / 2) hf2 htp_ne, htp_axis]
              have hni := flush_no_intersect hf6 hflush
              unfold scanPred
              rw [hni]
              simp
          · exact ihS b hm
        · rcases ihD with hRm | hRk
          · exact Or.inl hRm
          · refine Or.inr (fun k hk3 hkne => ?_)
            have hk_ne_axis : k ≠ fid / 2 := by
              intro hkeq
              rw [hkeq] at hkne
              exact hkne haxis
            have htp_k : (tempPos c (itemBoxMin c ib) (itemBoxMax c ib) newPos fid).nth k
                = newPos.nth k := tempPos_nth_other hk3 hk_ne_axis
            rw [hRk k hk3 (by rw [htp_k]; exact hkne), htp_k]

/-- The per-detail action of Scene.tsx setItem (lines 46-70): a sim_batch
replacement item replaces the sim_batch detail with the same
batchdetailid; a product replacement item is substituted inside the
products of every bare order; details of the other kind pass through. -/
def setItemDetail (item : SimBox) (detail : Detail) : Detail :=
  match item with
  | .pal p =>
    match detail with
    | .ord o => .ord o
    | .pal d => if d.batchdetailid ≠ p.batchdetailid then .pal d else .pal p
  | .prod pr =>
    match detail with
    | .pal d => .pal d
    | .ord o => .ord { o with products := o.products.map (fun q => if q.batchdetailid ≠ pr.batchdetailid then q else pr) }

/-- setItem of Scene.tsx (lines 46-70): map the per-detail action over the
details and rebuild the batch. -/
def setItem (data : SimBatch) (item : SimBox) : SimBatch :=
  { data with details := data.details.map (setItemDetail item) }

/-- allItems of Scene.tsx (lines 39-44): each sim_batch detail is one flat
item, each bare order contributes its products. -/
def detailItems : Detail → List SimBox
  | .ord o => o.products.map .prod
  | .pal d => [.pal d]

/-- The flattened item list of a batch (Scene.tsx lines 39-44). -/
def flattenB (data : SimBatch) : List SimBox :=
  data.details.flatMap detailItems

/-- The effect of setItem on one flattened item: only an item of the same
kind with the same batchdetailid is replaced. -/
def replaceItemTop (item x : SimBox) : SimBox :=
  match item, x with
  | .pal p, .pal d => if d.batchdetailid ≠ p.batchdetailid then .pal d else .pal p
  | .pal _, .prod q => .prod q
  | .prod pr, .prod q => if q.batchdetailid ≠ pr.batchdetailid then .prod q else .prod pr
  | .prod _, .pal d => .pal d

/-- On one detail, flattening after setItem equals mapping the flat
replacement over the flattened detail. -/
theorem detailItems_setItemDetail (item : SimBox) (d : Detail) :
    detailItems (setItemDetail item d) = (detailItems d).map (replaceItemTop item) := by
  cases item with
  | pal p =>
    cases d with
    | ord o =>
      simp only [setItemDetail, detailItems, List.map_map]
      rfl
    | pal dd =>
      by_cases h : dd.batchdetailid ≠ p.batchdetailid
      · simp [setItemDetail, detailItems, replaceItemTop, h]
      · simp [setItemDetail, detailItems, replaceItemTop, h]
  | prod pr =>
    cases d with
    | pal dd => simp [setItemDetail, detailItems, replaceItemTop]
    | ord o =>
      simp only [setItemDetail, detailItems, List.map_map]
      refine List.map_congr_left (fun q _ => ?_)
      simp only [Function.comp_apply, replaceItemTop]
      by_cases h : q.batchdetailid ≠ pr.batchdetailid
      · rw [if_pos h, if_pos h]
      · rw [if_neg h, if_neg h]

/-- Flattening after setItem equals mapping the flat replacement over the
flattened batch (so every item other than same-kind id matches is
value-unchanged, and in particular products nested inside a sim_batch
detail are never replaced). -/
theorem flattenB_setItem (data : SimBatch) (item : SimBox) :
    flattenB (setItem data item) = (flattenB data).map (replaceItemTop item) := by
  unfold flattenB setItem
  rw [List.flatMap_map, List.map_flatMap]
  exact List.flatMap_congr (fun d _ => detailItems_setItemDetail item d)

/-- An id occurs in a detail: as the sim_batch detail's own id, as a box
of a bare order, or as a box nested inside a sim_batch detail's orders. -/
def detailMentionsId (i : ℕ) : Detail → Bool
  | .pal d => decide (d.batchdetailid = i) || d.orders.any (fun o => o.products.any (fun q => decide (q.batchdetailid = i)))
  | .ord o => o.products.any (fun q => decide (q.batchdetailid = i))

/-- An id occurs somewhere in the batch's detail tree. -/
def batchMentionsId (data : SimBatch) (i : ℕ) : Bool :=
  data.details.any (detailMentionsId i)

/-- When the replacement item's id occurs nowhere in a detail, setItem
leaves that detail untouched (as a value). -/
theorem setItemDetail_id_of_not_mentioned (item : SimBox) (d : Detail)
    (h : detailMentionsId item.batchdetailid d = false) :
    setItemDetail item d = d := by
  cases item with
  | pal p =>
    cases d with
    | ord o => rfl
    | pal dd =>
      simp only [detailMentionsId, Bool.or_eq_false_iff, decide_eq_false_iff_not] at h
      simp only [setItemDetail]
      rw [if_pos]
      intro heq
      exact h.1 (by rw [heq]; rfl)
  | prod pr =>
    cases d with
    | pal dd => rfl
    | ord o =>
      simp only [detailMentionsId, List.any_eq_false, decide_eq_false_iff_not] at h
      simp only [setItemDetail]
      have hmap : o.products.map (fun q => if q.batchdetailid ≠ pr.batchdetailid then q else pr) = o.products := by
        have hcg : o.products.map (fun q => if q.batchdetailid ≠ pr.batchdetailid then q else pr) = o.products.map id := by
          refine List.map_congr_left (fun q hq => ?_)
          rw [id_eq, if_pos]
          intro heq
          have hq' := h q hq
          simp only [SimBox.batchdetailid] at hq'
          exact hq' (by rw [heq]; simp)
        rw [hcg, List.map_id]
      rw [hmap]

/-- setItem with an id that occurs nowhere in the detail tree returns the
batch unchanged as a value. -/
theorem setItem_of_not_mentioned (data : SimBatch) (item : SimBox)
    (h : batchMentionsId data item.batchdetailid = false) :
    setItem data item = data := by
  unfold setItem
  have hall : ∀ d ∈ data.details, detailMentionsId item.batchdetailid d = false := by
    simpa [batchMentionsId, List.any_eq_false] using h
  have hmap : data.details.map (setItemDetail item) = data.details := by
    have hcg : data.details.map (setItemDetail item) = data.details.map id :=
      List.map_congr_left (fun d hd => by rw [id_eq, setItemDetail_id_of_not_mentioned item d (hall d hd)])
    rw [hcg, List.map_id]
  rw [hmap]

/-- The rotH lookup object of DetailSection.tsx (lines 691-698).  Its keys
are exactly the values of the rotation type 0..5; the catch-all branch is
unreachable for well-typed rotations. -/
def rotH : ℕ → ℕ
  | 0 => 1
  | 1 => 0
  | 2 => 3
  | 3 => 2
  | 4 => 5
  | 5 => 4
  | n => n

/-- The rotV lookup object of DetailSection.tsx (lines 699-706), same
domain remark as for rotH. -/
def rotV : ℕ → ℕ
  | 0 => 4
  | 1 => 3
  | 2 => 5
  | 3 => 1
  | 4 => 0
  | 5 => 2
  | n => n

/-- The per-detail action of the horizontal-rotation button handler of
DetailSection.tsx (lines 768-800). -/
def rotHDetail (sel : SimBox) (detail : Detail) : Detail :=
  match sel with
  | .pal p =>
    match detail with
    | .ord o => .ord o
    | .pal d => if d.batchdetailid ≠ p.batchdetailid then .pal d else .pal { d with rotation := rotH d.rotation }
  | .prod pr =>
    match detail with
    | .pal d => .pal d
    | .ord o => .ord { o with products := o.products.map (fun q => if q.batchdetailid ≠ pr.batchdetailid then q else { q with rotation := rotH q.rotation }) }

/-- The horizontal-rotation command applied to the whole batch
(DetailSection.tsx lines 768-800). -/
def rotHApply (data : SimBatch) (sel : SimBox) : SimBatch :=
  { data with details := data.details.map (rotHDetail sel) }

/-- The per-detail action of the vertical-rotation button handler of
DetailSection.tsx (lines 801-825): every sim_batch detail passes through
untouched; boxes of bare orders with the selected id get rotV. -/
def rotVDetail (sel : SimBox) (detail : Detail) : Detail :=
  match detail with
  | .pal d => .pal d
  | .ord o => .ord { o with products := o.products.map (fun q => if q.batchdetailid ≠ sel.batchdetailid then q else { q with rotation := rotV q.rotation }) }

/-- The vertical-rotation command applied to the whole batch
(DetailSection.tsx lines 801-825). -/
def rotVApply (data : SimBatch) (sel : SimBox) : SimBatch :=
  { data with details := data.details.map (rotVDetail sel) }

/-- The effect of the horizontal rotation on one flattened item: only the
same-kind item with the selected id changes, and only its rotation
field. -/
def rotHTop (sel x : SimBox) : SimBox :=
  match sel, x with
  | .pal p, .pal d => if d.batchdetailid ≠ p.batchdetailid then .pal d else .pal { d with rotation := rotH d.rotation }
  | .pal _, .prod q => .prod q
  | .prod pr, .prod q => if q.batchdetailid ≠ pr.batchdetailid then .prod q else .prod { q with rotation := rotH q.rotation }
  | .prod _, .pal d => .pal d

/-- The effect of the vertical rotation on one flattened item: sim_batch
items are never changed; the box with the selected id changes only its
rotation field. -/
def rotVTop (sel x : SimBox) : SimBox :=
  match x with
  | .pal d => .pal d
  | .prod q => if q.batchdetailid ≠ sel.batchdetailid then .prod q else .prod { q with rotation := rotV q.rotation }

/-- On one detail, flattening after the horizontal rotation equals mapping
the flat action. -/
theorem detailItems_rotHDetail (sel : SimBox) (d : Detail) :
    detailItems (rotHDetail sel d) = (detailItems d).map (rotHTop sel) := by
  cases sel with
  | pal p =>
    cases d with
    | ord o =>
      simp only [rotHDetail, detailItems, List.map_map]
      rfl
    | pal dd =>
      by_cases h : dd.batchdetailid ≠ p.batchdetailid
      · simp [rotHDetail, detailItems, rotHTop, h]
      · simp [rotHDetail, detailItems, rotHTop, h]
  | prod pr =>
    cases d with
    | pal dd => simp [rotHDetail, detailItems, rotHTop]
    | ord o =>
      simp only [rotHDetail, detailItems, List.map_map]
      refine List.map_congr_left (fun q _ => ?_)
      simp only [Function.comp_apply, rotHTop]
      by_cases h : q.batchdetailid ≠ pr.batchdetailid
      · rw [if_pos h, if_pos h]
      · rw [if_neg h, if_neg h]

/-- Flattening after the horizontal rotation equals mapping the flat
action over the flattened batch. -/
theorem flattenB_rotHApply (data : SimBatch) (sel : SimBox) :
    flattenB (rotHApply data sel) = (flattenB data).map (rotHTop sel) := by
  unfold flattenB rotHApply
  rw [List.flatMap_map, List.map_flatMap]
  exact List.flatMap_congr (fun d _ => detailItems_rotHDetail sel d)

/-- On one detail, flattening after the vertical rotation equals mapping
the flat action. -/
theorem detailItems_rotVDetail (sel : SimBox) (d : Detail) :
    detailItems (rotVDetail sel d) = (detailItems d).map (rotVTop sel) := by
  cases d with
  | pal dd => simp [rotVDetail, detailItems, rotVTop]
  | ord o =>
    simp only [rotVDetail, detailItems, List.map_map]
    refine List.map_congr_left (fun q _ => ?_)
    simp only [Function.comp_apply, rotVTop]
    by_cases h : q.batchdetailid ≠ sel.batchdetailid
    · rw [if_pos h, if_pos h]
    · rw [if_neg h, if_neg h]

/-- Flattening after the vertical rotation equals mapping the flat action
over the flattened batch. -/
theorem flattenB_rotVApply (data : SimBatch) (sel : SimBox) :
    flattenB (rotVApply data sel) = (flattenB data).map (rotVTop sel) := by
  unfold flattenB rotVApply
  rw [List.flatMap_map, List.map_flatMap]
  exact List.flatMap_congr (fun d _ => detailItems_rotVDetail sel d)

/-- Fuel adequacy: with at least as much fuel as the list is long, the
fuel-indexed resolver never runs out and computes exactly getNewPos;
equivalently, the recursion depth of getNewPos is bounded by the number
of items in the scanned list. -/
theorem getNewPosO_eq (c : Ctx) :
    ∀ (fuel : ℕ) (boxes : List SimBox), boxes.length ≤ fuel → ∀ (posArr newPos : V3),
      getNewPosO c fuel boxes posArr newPos = some (getNewPos c boxes posArr newPos) := by
  intro fuel
  induction fuel with
  | zero =>
    intro boxes hlen posArr newPos
    have hnil : boxes = [] := List.length_eq_zero.mp (Nat.le_zero.mp hlen)
    subst hnil
    have hscan : lastHit (scanPred c (vsub newPos (vhalf (boxOrien c))) (vadd newPos (vhalf (boxOrien c)))) ([] : List SimBox) = none := rfl
    rw [getNewPos_of_scan_none hscan]
    rfl
  | succ f ih =>
    intro boxes hlen posArr newPos
    cases hscan : lastHit (scanPred c (vsub newPos (vhalf (boxOrien c))) (vadd newPos (vhalf (boxOrien c)))) boxes with
    | none =>
      rw [getNewPos_of_scan_none hscan]
      unfold getNewPosO
      rw [hscan]
    | some pair =>
      obtain ⟨idx, ib⟩ := pair
      have hidx : idx < boxes.length := lastHit_some_lt hscan
      have hlen' : (boxes.eraseIdx idx).length ≤ f := by
        rw [List.length_eraseIdx]
        simp only [if_pos hidx]
        omega
      cases hmin : minInter c posArr newPos (itemBoxMin c ib) (itemBoxMax c ib)
          (vsub newPos (vhalf (boxOrien c))) (vadd newPos (vhalf (boxOrien c))) with
      | none =>
        rw [getNewPos_of_minInter_none hscan hmin]
        unfold getNewPosO
        rw [hscan]
        simp only []
        rw [hmin]
        exact ih _ hlen' posArr c.matrixPos
      | some pr =>
        obtain ⟨fid, v⟩ := pr
        rw [getNewPos_of_minInter_some hscan hmin]
        unfold getNewPosO
        rw [hscan]
        simp only []
        rw [hmin]
        exact ih _ hlen' posArr _

/-- The rotation table exactly as the spec states it (section 4.1), on a
nominal triple (L, H, W) whose H already includes the load height; kept
separate from getRotDim so the two can be compared. -/
def rotDimOfSpec (L H W : ℚ) : ℕ → V3
  | 0 => ⟨L, H, W⟩
  | 1 => ⟨W, H, L⟩
  | 2 => ⟨H, L, W⟩
  | 3 => ⟨W, L, H⟩
  | 4 => ⟨L, W, H⟩
  | _ => ⟨H, W, L⟩

/-- Permutation chain [h, w, l] is a permutation of [l, h, w]. -/
theorem perm_hwl (l h w : ℚ) : [h, w, l].Perm [l, h, w] :=
  (List.Perm.cons h (List.Perm.swap l w [])).trans (List.Perm.swap l h [w])

/-- Permutation chain [w, h, l] is a permutation of [l, h, w]. -/
theorem perm_whl (l h w : ℚ) : [w, h, l].Perm [l, h, w] :=
  (List.Perm.swap h w [l]).trans (perm_hwl l h w)

/-- Permutation chain [w, l, h] is a permutation of [l, h, w]. -/
theorem perm_wlh (l h w : ℚ) : [w, l, h].Perm [l, h, w] :=
  (List.Perm.swap l w [h]).trans (List.Perm.cons l (List.Perm.swap h w []))

/-- C5: for every item with positive nominal dimensions and rotation code
0-5, getRotDim returns exactly the mapping of the spec table (on the
triple (length, height + load height, width)) and that result is a
permutation of the nominal triple with no sign change. -/
theorem getRotDim_matches_spec (item : SimBox) (hr : item.rotation < 6)
    (hL : 0 < item.length) (hW : 0 < item.width) (hH : 0 < item.height) :
    getRotDim item = rotDimOfSpec item.length (item.height + item.loadHeightOf) item.width item.rotation ∧
      [(getRotDim item).x, (getRotDim item).y, (getRotDim item).z].Perm
        [item.length, item.height + item.loadHeightOf, item.width] := by
  obtain ⟨r, hrot⟩ : ∃ r, item.rotation = r := ⟨_, rfl⟩
  rw [hrot] at hr
  unfold getRotDim
  rw [hrot]
  interval_cases r
  · exact ⟨rfl, List.Perm.refl _⟩
  · exact ⟨rfl, perm_whl _ _ _⟩
  · exact ⟨rfl, List.Perm.swap _ _ _⟩
  · exact ⟨rfl, perm_wlh _ _ _⟩
  · exact ⟨rfl, List.Perm.cons _ (List.Perm.swap _ _ [])⟩
  · exact ⟨rfl, perm_hwl _ _ _⟩

/-- C7: for a positive render scale, adjustScale and readjustScale are
exact inverses in both directions, and readjustPos inverts adjustPos (and
conversely) for every position, size and container dimension. -/
theorem scale_conversions_inverse (c : Ctx) (h : 0 < c.renderScale) :
    (∀ v : V3, readjustScale c (adjustScale c v) = v ∧ adjustScale c (readjustScale c v) = v) ∧
      (∀ pos size : V3, readjustPos c (adjustPos c pos size) size = pos ∧
        adjustPos c (readjustPos c pos size) size = pos) := by
  have hne : c.renderScale ≠ 0 := ne_of_gt h
  constructor
  · intro v
    obtain ⟨x, y, z⟩ := v
    constructor
    · simp only [adjustScale, readjustScale, V3.mk.injEq]
      refine ⟨?_, ?_, ?_⟩ <;> field_simp
    · simp only [adjustScale, readjustScale, V3.mk.injEq]
      refine ⟨?_, ?_, ?_⟩ <;> field_simp
  · intro pos size
    obtain ⟨x, y, z⟩ := pos
    constructor
    · simp only [adjustPos, readjustPos, V3.mk.injEq]
      refine ⟨?_, ?_, ?_⟩ <;> ring
    · simp only [adjustPos, readjustPos, V3.mk.injEq]
      refine ⟨?_, ?_, ?_⟩ <;> ring

/-- C8: the horizontal rotation pairs 0-1, 2-3, 4-5 and the vertical
rotation pairs 0-4, 1-3, 2-5, both involutions on the rotation codes;
on the flattened batch either command changes only the rotation field of
the same-kind item carrying the selected id, and the vertical command
never changes a sim_batch (SubPallet) item. -/
theorem rotation_commands_spec :
    (∀ r, r < 6 → rotH (rotH r) = r ∧ rotV (rotV r) = r) ∧
      (rotH 0 = 1 ∧ rotH 1 = 0 ∧ rotH 2 = 3 ∧ rotH 3 = 2 ∧ rotH 4 = 5 ∧ rotH 5 = 4) ∧
      (rotV 0 = 4 ∧ rotV 4 = 0 ∧ rotV 1 = 3 ∧ rotV 3 = 1 ∧ rotV 2 = 5 ∧ rotV 5 = 2) ∧
      (∀ data sel, flattenB (rotHApply data sel) = (flattenB data).map (rotHTop sel)) ∧
      (∀ data sel, flattenB (rotVApply data sel) = (flattenB data).map (rotVTop sel)) ∧
      (∀ (sel : SimBox) (d : SimPallet), rotVTop sel (.pal d) = .pal d) := by
  refine ⟨?_, by decide, by decide, flattenB_rotHApply, flattenB_rotVApply, fun sel d => rfl⟩
  intro r hr
  interval_cases r <;> exact ⟨rfl, rfl⟩

/-- The id occurs as a box of a bare (top-level) Order of the batch; ids
carried only by sim_batch details or nested inside their orders do not
count. -/
def bareOrderMentionsId (data : SimBatch) (i : ℕ) : Bool :=
  data.details.any (fun d =>
    match d with
    | .ord o => o.products.any (fun q => decide (q.batchdetailid = i))
    | .pal _ => false)

/-- C2 (amended), stated on the tree: setItem keeps every batch-level
field and the number and order of Details; at each index, a bare Order
facing a sim_batch replacement and a sim_batch Detail facing a box
replacement are value-equal to the input node (so every box nested
inside a SubPallet's orders is untouched); a sim_batch Detail facing a
sim_batch replacement is replaced exactly when the ids match; a bare
Order facing a box replacement keeps its orderid, names and box count,
and replaces exactly the boxes whose id matches, every other box being
value-equal.  Finally, a box replacement whose id occurs in no bare
Order (in particular an id occurring only nested inside a SubPallet's
orders) leaves the whole tree value-equal. -/
theorem patch_replaces_only_top_level :
    (∀ (data : SimBatch) (item : SimBox),
      (setItem data item).details.length = data.details.length ∧
      ((setItem data item).batchid = data.batchid ∧
        (setItem data item).batchname = data.batchname ∧
        (setItem data item).batchtype = data.batchtype ∧
        (setItem data item).length = data.length ∧
        (setItem data item).width = data.width ∧
        (setItem data item).height = data.height ∧
        (setItem data item).loadlength = data.loadlength ∧
        (setItem data item).loadwidth = data.loadwidth ∧
        (setItem data item).loadheight = data.loadheight ∧
        (setItem data item).color = data.color) ∧
      ∀ i (hi : i < data.details.length) (hi' : i < (setItem data item).details.length),
        (∀ (o : SimOrder) (p : SimPallet), data.details.get ⟨i, hi⟩ = .ord o → item = .pal p →
          (setItem data item).details.get ⟨i, hi'⟩ = .ord o) ∧
        (∀ (d : SimPallet) (p : SimPallet), data.details.get ⟨i, hi⟩ = .pal d → item = .pal p →
          (setItem data item).details.get ⟨i, hi'⟩ =
            if d.batchdetailid = p.batchdetailid then .pal p else .pal d) ∧
        (∀ (d : SimPallet) (pr : SimProduct), data.details.get ⟨i, hi⟩ = .pal d → item = .prod pr →
          (setItem data item).details.get ⟨i, hi'⟩ = .pal d) ∧
        (∀ (o : SimOrder) (pr : SimProduct), data.details.get ⟨i, hi⟩ = .ord o → item = .prod pr →
          ∃ o' : SimOrder, (setItem data item).details.get ⟨i, hi'⟩ = .ord o' ∧
            o'.orderid = o.orderid ∧ o'.ordername = o.ordername ∧
            o'.ordernumber = o.ordernumber ∧ o'.products.length = o.products.length ∧
            ∀ j (hj : j < o.products.length) (hj' : j < o'.products.length),
              ((o.products.get ⟨j, hj⟩).batchdetailid = pr.batchdetailid →
                o'.products.get ⟨j, hj'⟩ = pr) ∧
              ((o.products.get ⟨j, hj⟩).batchdetailid ≠ pr.batchdetailid →
                o'.products.get ⟨j, hj'⟩ = o.products.get ⟨j, hj⟩))) ∧
    (∀ (data : SimBatch) (pr : SimProduct),
      bareOrderMentionsId data pr.batchdetailid = false → setItem data (.prod pr) = data) := by
  constructor
  · intro data item
    refine ⟨List.length_map _ _, ⟨rfl, rfl, rfl, rfl, rfl, rfl, rfl, rfl, rfl, rfl⟩, ?_⟩
    intro i hi hi'
    have hget : (setItem data item).details.get ⟨i, hi'⟩
        = setItemDetail item (data.details.get ⟨i, hi⟩) := by
      simp [setItem, List.get_eq_getElem, List.getElem_map]
    refine ⟨?_, ?_, ?_, ?_⟩
    · intro o p ho hitem
      subst hitem
      rw [hget, ho]
      rfl
    · intro d p hd hitem
      subst hitem
      rw [hget, hd]
      by_cases h : d.batchdetailid = p.batchdetailid
      · simp [setItemDetail, h]
      · simp [setItemDetail, h]
    · intro d pr hd hitem
      subst hitem
      rw [hget, hd]
      rfl
    · intro o pr ho hitem
      subst hitem
      rw [hget, ho]
      refine ⟨_, rfl, rfl, rfl, rfl, List.length_map _ _, ?_⟩
      intro j hj hj'
      have hgq : (o.products.map (fun q => if q.batchdetailid ≠ pr.batchdetailid then q else pr)).get ⟨j, hj'⟩
          = if (o.products.get ⟨j, hj⟩).batchdetailid ≠ pr.batchdetailid
            then o.products.get ⟨j, hj⟩ else pr := by
        simp [List.get_eq_getElem, List.getElem_map]
      constructor
      · intro hid
        show (o.products.map (fun q => if q.batchdetailid ≠ pr.batchdetailid then q else pr)).get ⟨j, hj'⟩ = pr
        rw [hgq, if_neg (not_not_intro hid)]
      · intro hid
        show (o.products.map (fun q => if q.batchdetailid ≠ pr.batchdetailid then q else pr)).get ⟨j, hj'⟩
          = o.products.get ⟨j, hj⟩
        rw [hgq, if_pos hid]
  · intro data pr h
    have h' : ∀ d ∈ data.details,
        (match d with
          | .ord o => o.products.any (fun q => decide (q.batchdetailid = pr.batchdetailid))
          | .pal _ => false) = false := by
      simpa [bareOrderMentionsId, List.any_eq_false] using h
    have hall : ∀ d ∈ data.details, setItemDetail (.prod pr) d = d := by
      intro d hd
      cases d with
      | pal dd => rfl
      | ord o =>
        have ho : o.products.any (fun q => decide (q.batchdetailid = pr.batchdetailid)) = false :=
          h' (.ord o) hd
        have hq : ∀ q ∈ o.products, q.batchdetailid ≠ pr.batchdetailid := by
          simpa [List.any_eq_false] using ho
        have hcg : o.products.map (fun q => if q.batchdetailid ≠ pr.batchdetailid then q else pr)
            = o.products.map id :=
          List.map_congr_left (fun q hqm => by rw [id_eq, if_pos (hq q hqm)])
        show Detail.ord { o with products := o.products.map (fun q => if q.batchdetailid ≠ pr.batchdetailid then q else pr) } = Detail.ord o
        rw [hcg, List.map_id]
    unfold setItem
    have hmap : data.details.map (setItemDetail (.prod pr)) = data.details := by
      have hcg : data.details.map (setItemDetail (.prod pr)) = data.details.map id :=
        List.map_congr_left (fun d hd => by rw [id_eq, hall d hd])
      rw [hcg, List.map_id]
    rw [hmap]

/-- C9: patching with an id that occurs nowhere in the batch's detail
tree (not as a sim_batch detail, not as a bare-order box, not as a box
nested inside a sim_batch's orders) returns a batch value-equal to the
input: a silent no-op. -/
theorem patch_missing_id_is_noop (data : SimBatch) (item : SimBox)
    (h : batchMentionsId data item.batchdetailid = false) :
    setItem data item = data :=
  setItem_of_not_mentioned data item h

/-- A box (SimProduct) with the display-only fields blanked, for concrete
instances. -/
def mkProduct (i : ℕ) (L W H : ℚ) (pos : V3) (r : ℕ) : SimProduct :=
  { batchdetailid := i, masterid := 0, code := "", name := "", length := L, width := W,
    height := H, maxstack := 0, isfragile := false, istop := false, notstack := false,
    issideUp := false, color := "", position := pos, rotation := r, no := none, qtt := 1 }

/-- Dragged item of the fallback counterexample: a 2-cube whose stored
position puts its centre at (0, 1, 0); its current matrix position is the
same point. -/
def cexSel : SimProduct := mkProduct 1 2 2 2 ⟨499, 499, 0⟩ 0

/-- Obstacle of the fallback counterexample: a 998 by 999 by 998 box
filling the container, leaving no room to place the dragged cube flush
against any of its faces inside the bounds. -/
def cexObst : SimProduct := mkProduct 2 998 998 999 ⟨1, 1, 0⟩ 0

/-- Context of the fallback counterexample: unit render scale, 1000-cube
usable volume, the dragged 2-cube currently sitting inside the obstacle. -/
def cexCtx : Ctx :=
  { renderScale := 1, contSize := ⟨1000, 1000, 1000⟩, data := .prod cexSel, matrixPos := ⟨0, 1, 0⟩ }

/-- Item list of the fallback counterexample (the dragged item itself is
in the list, as in Scene's allItems). -/
def cexBoxes : List SimBox := [.prod cexObst, .prod cexSel]

/-- In-bounds drag target of the fallback counterexample. -/
def cexTarget : V3 := ⟨10, 1, 0⟩

/-- SafeAt unfolded to the claim-level statement: every item of the list
other than the dragged one (by id) has a non-intersecting box. -/
theorem safeAt_iff (c : Ctx) (pos : V3) (boxes : List SimBox) :
    SafeAt c pos boxes ↔
      ∀ b ∈ boxes, b.batchdetailid ≠ c.data.batchdetailid →
        intersectsB (vsub pos (vhalf (boxOrien c))) (vadd pos (vhalf (boxOrien c)))
          (itemBoxMin c b) (itemBoxMax c b) = false := by
  unfold SafeAt scanPred
  constructor
  · intro h b hb hid
    have hsp := h b hb
    simpa [hid] using hsp
  · intro h b hb
    by_cases hid : b.batchdetailid = c.data.batchdetailid
    · simp [hid]
    · simp [hid, h b hb hid]

/-- C1 (amended): when the dragged item's current matrix position has zero
three-axis overlap with every other item of the list, the resolved
position for any raw target again has zero three-axis overlap with every
other item of the list. -/
theorem resolver_output_no_overlap (c : Ctx) (boxes : List SimBox) (target : V3)
    (hm : ∀ b ∈ boxes, b.batchdetailid ≠ c.data.batchdetailid →
      intersectsB (vsub c.matrixPos (vhalf (boxOrien c))) (vadd c.matrixPos (vhalf (boxOrien c)))
        (itemBoxMin c b) (itemBoxMax c b) = false) :
    ∀ b ∈ boxes, b.batchdetailid ≠ c.data.batchdetailid →
      intersectsB (vsub (getNewPos0 c boxes target) (vhalf (boxOrien c)))
        (vadd (getNewPos0 c boxes target) (vhalf (boxOrien c)))
        (itemBoxMin c b) (itemBoxMax c b) = false := by
  have hS : SafeAt c c.matrixPos boxes := (safeAt_iff c c.matrixPos boxes).mpr hm
  have hmain := (getNewPos_safe_main c boxes.length boxes le_rfl target target hS).1
  exact (safeAt_iff c _ boxes).mp hmain

/-- C6: a target whose box intersects no other item's box is returned
unchanged by the resolver. -/
theorem resolver_identity_when_clear (c : Ctx) (boxes : List SimBox) (target : V3)
    (h : ∀ b ∈ boxes, b.batchdetailid ≠ c.data.batchdetailid →
      intersectsB (vsub target (vhalf (boxOrien c))) (vadd target (vhalf (boxOrien c)))
        (itemBoxMin c b) (itemBoxMax c b) = false) :
    getNewPos0 c boxes target = target := by
  have hS : SafeAt c target boxes := (safeAt_iff c target boxes).mpr h
  unfold getNewPos0
  exact getNewPos_of_safe hS

/-- A well-clear obstacle for the positive witnesses: a 2-cube centred at
(-10, 1, 0). -/
def wObst : SimProduct := mkProduct 2 2 2 2 ⟨489, 499, 0⟩ 0

/-- Context of the positive witnesses: same dragged 2-cube at (0, 1, 0). -/
def wCtx : Ctx :=
  { renderScale := 1, contSize := ⟨1000, 1000, 1000⟩, data := .prod cexSel, matrixPos := ⟨0, 1, 0⟩ }

/-- Item list of the positive witnesses. -/
def wBoxes : List SimBox := [.prod wObst, .prod cexSel]

/-- A drag target clear of the witness obstacle. -/
def wTarget : V3 := ⟨5, 1, 0⟩

/-- Dragged item of the scan-order counterexample: a 2-cube targeted at
the origin of the floor. -/
def c3Sel : SimProduct := mkProduct 1 2 2 2 ⟨499, 499, 0⟩ 0

/-- First-listed obstacle of the scan-order counterexample: 2-cube centred
at (1, 1, 0). -/
def c3A : SimProduct := mkProduct 2 2 2 2 ⟨500, 499, 0⟩ 0

/-- Second-listed obstacle of the scan-order counterexample: 2-cube
centred at (-1, 1, 0). -/
def c3B : SimProduct := mkProduct 3 2 2 2 ⟨498, 499, 0⟩ 0

/-- Context of the scan-order counterexample. -/
def c3Ctx : Ctx :=
  { renderScale := 1, contSize := ⟨1000, 1000, 1000⟩, data := .prod c3Sel, matrixPos := ⟨0, 1, 0⟩ }

/-- Item list of the scan-order counterexample: both obstacles overlap the
target. -/
def c3Boxes : List SimBox := [.prod c3A, .prod c3B]

/-- Target of the scan-order counterexample, overlapping both obstacles. -/
def c3T : V3 := ⟨0, 1, 0⟩

/-- Dragged item of the dropped-obstacle counterexample; its matrix
position coincides with the first obstacle's centre. -/
def c4Sel : SimProduct := mkProduct 1 2 2 2 ⟨500, 499, 0⟩ 0

/-- Small obstacle of the dropped-obstacle counterexample, centred at
(1, 1, 0). -/
def c4O1 : SimProduct := mkProduct 2 2 2 2 ⟨500, 499, 0⟩ 0

/-- Huge obstacle of the dropped-obstacle counterexample: a 998 by 999 by
998 box filling the container. -/
def c4O2 : SimProduct := mkProduct 3 998 998 999 ⟨1, 1, 0⟩ 0

/-- Context of the dropped-obstacle counterexample. -/
def c4Ctx : Ctx :=
  { renderScale := 1, contSize := ⟨1000, 1000, 1000⟩, data := .prod c4Sel, matrixPos := ⟨1, 1, 0⟩ }

/-- Item list of the dropped-obstacle counterexample. -/
def c4Boxes : List SimBox := [.prod c4O2, .prod c4O1]

/-- Target of the dropped-obstacle counterexample. -/
def c4T : V3 := ⟨0, 1, 0⟩


/-- The scanning reduce on a two-element list picks the second element
when it passes the test. -/
theorem lastHit_pair_right {p : SimBox → Bool} {a b : SimBox} (h : p b = true) :
    lastHit p [a, b] = some (1, b) := by simp [lastHit, h]

/-- The scanning reduce on a two-element list picks the first element when
only it passes the test. -/
theorem lastHit_pair_left {p : SimBox → Bool} {a b : SimBox} (hb : p b = false) (ha : p a = true) :
    lastHit p [a, b] = some (0, a) := by simp [lastHit, hb, ha]

/-- The scanning reduce on a two-element list finds nothing when both
fail the test. -/
theorem lastHit_pair_none {p : SimBox → Bool} {a b : SimBox} (hb : p b = false) (ha : p a = false) :
    lastHit p [a, b] = none := by simp [lastHit, hb, ha]

/-- The scanning reduce on a singleton list picks its element when it
passes the test. -/
theorem lastHit_single_some {p : SimBox → Bool} {a : SimBox} (h : p a = true) :
    lastHit p [a] = some (0, a) := by simp [lastHit, h]

/-- The scanning reduce on a singleton list finds nothing when its element
fails the test. -/
theorem lastHit_single_none {p : SimBox → Bool} {a : SimBox} (h : p a = false) :
    lastHit p [a] = none := by simp [lastHit, h]

/-- The dragged item never passes the scan test against itself, whatever
the working box is. -/
theorem scanPred_self_false (c : Ctx) (pMin pMax : V3) (b : SimBox)
    (h : b.batchdetailid = c.data.batchdetailid) : scanPred c pMin pMax b = false := by
  simp [scanPred, h]

/-- C1 counterexample: with the dragged 2-cube currently inside a huge
obstacle whose six flush positions all leave the container, every face
candidate is filtered out, the resolver falls back to the matrix
position, and the returned position still intersects the obstacle. -/
theorem resolver_output_no_overlap_cex :
    getNewPos0 cexCtx cexBoxes cexTarget = cexCtx.matrixPos ∧
      SimBox.prod cexObst ∈ cexBoxes ∧
      (SimBox.prod cexObst).batchdetailid ≠ cexCtx.data.batchdetailid ∧
      intersectsB (vsub (getNewPos0 cexCtx cexBoxes cexTarget) (vhalf (boxOrien cexCtx)))
        (vadd (getNewPos0 cexCtx cexBoxes cexTarget) (vhalf (boxOrien cexCtx)))
        (itemBoxMin cexCtx (.prod cexObst)) (itemBoxMax cexCtx (.prod cexObst)) = true := by
  have hpo : scanPred cexCtx (vsub cexTarget (vhalf (boxOrien cexCtx)))
      (vadd cexTarget (vhalf (boxOrien cexCtx))) (.prod cexObst) = true := by
    norm_num [scanPred, intersectsB, itemBoxMin, itemBoxMax, itemBoxPos, adjustScale, adjustPos,
      swizzle, getRotDim, SimBox.loadHeightOf, boxOrien, vsub, vadd, vhalf, cexCtx, cexSel,
      cexObst, mkProduct, cexTarget, SimBox.batchdetailid, SimBox.length, SimBox.width,
      SimBox.height, SimBox.rotation, SimBox.position]
  have hps : scanPred cexCtx (vsub cexTarget (vhalf (boxOrien cexCtx)))
      (vadd cexTarget (vhalf (boxOrien cexCtx))) (.prod cexSel) = false :=
    scanPred_self_false cexCtx _ _ _ rfl
  have hscan : lastHit (scanPred cexCtx (vsub cexTarget (vhalf (boxOrien cexCtx)))
      (vadd cexTarget (vhalf (boxOrien cexCtx)))) cexBoxes = some (0, .prod cexObst) :=
    lastHit_pair_left hps hpo
  have hmin : minInter cexCtx cexTarget cexTarget (itemBoxMin cexCtx (.prod cexObst))
      (itemBoxMax cexCtx (.prod cexObst)) (vsub cexTarget (vhalf (boxOrien cexCtx)))
      (vadd cexTarget (vhalf (boxOrien cexCtx))) = none := by
    norm_num [minInter, minInterStep, List.range_succ, interFace, adjPosFace, palletMinmax,
      palletMin, palletMax, adjustedContSize, itemBoxMin, itemBoxMax, itemBoxPos, adjustScale,
      adjustPos, swizzle, getRotDim, SimBox.loadHeightOf, boxOrien, vsub, vadd, vhalf, cexCtx,
      cexSel, cexObst, mkProduct, cexTarget, SimBox.batchdetailid, SimBox.length, SimBox.width,
      SimBox.height, SimBox.rotation, SimBox.position, V3.nth]
  have hps2 : scanPred cexCtx (vsub cexCtx.matrixPos (vhalf (boxOrien cexCtx)))
      (vadd cexCtx.matrixPos (vhalf (boxOrien cexCtx))) (.prod cexSel) = false :=
    scanPred_self_false cexCtx _ _ _ rfl
  have hscan2 : lastHit (scanPred cexCtx (vsub cexCtx.matrixPos (vhalf (boxOrien cexCtx)))
      (vadd cexCtx.matrixPos (vhalf (boxOrien cexCtx)))) [.prod cexSel] = none :=
    lastHit_single_none hps2
  have hval : getNewPos0 cexCtx cexBoxes cexTarget = cexCtx.matrixPos := by
    unfold getNewPos0
    rw [getNewPos_of_minInter_none hscan hmin]
    rw [show cexBoxes.eraseIdx 0 = [.prod cexSel] from rfl]
    exact getNewPos_of_scan_none hscan2
  refine ⟨hval, List.Mem.head _, by decide, ?_⟩
  rw [hval]
  norm_num [intersectsB, itemBoxMin, itemBoxMax, itemBoxPos, adjustScale, adjustPos, swizzle,
    getRotDim, SimBox.loadHeightOf, boxOrien, vsub, vadd, vhalf, cexCtx, cexSel, cexObst,
    mkProduct, SimBox.batchdetailid, SimBox.length, SimBox.width, SimBox.height, SimBox.rotation,
    SimBox.position]

/-- C1 witness scene hypothesis: at the matrix position the dragged cube
is clear of the witness obstacle. -/
theorem wCtx_matrix_clear :
    ∀ b ∈ wBoxes, b.batchdetailid ≠ wCtx.data.batchdetailid →
      intersectsB (vsub wCtx.matrixPos (vhalf (boxOrien wCtx)))
        (vadd wCtx.matrixPos (vhalf (boxOrien wCtx)))
        (itemBoxMin wCtx b) (itemBoxMax wCtx b) = false := by
  intro b hb hid
  rcases List.mem_cons.mp hb with rfl | hb2
  · norm_num [intersectsB, itemBoxMin, itemBoxMax, itemBoxPos, adjustScale, adjustPos, swizzle,
      getRotDim, SimBox.loadHeightOf, boxOrien, vsub, vadd, vhalf, wCtx, cexSel, wObst, mkProduct,
      SimBox.batchdetailid, SimBox.length, SimBox.width, SimBox.height, SimBox.rotation,
      SimBox.position]
  · rcases List.mem_cons.mp hb2 with rfl | h0
    · exact absurd rfl hid
    · cases h0

/-- C1 witness: on a clear scene the resolved position does not intersect
the witness obstacle. -/
theorem resolver_output_no_overlap_witness :
    (SimBox.prod wObst).batchdetailid ≠ wCtx.data.batchdetailid ∧
      intersectsB (vsub (getNewPos0 wCtx wBoxes wTarget) (vhalf (boxOrien wCtx)))
        (vadd (getNewPos0 wCtx wBoxes wTarget) (vhalf (boxOrien wCtx)))
        (itemBoxMin wCtx (.prod wObst)) (itemBoxMax wCtx (.prod wObst)) = false :=
  ⟨by decide, resolver_output_no_overlap wCtx wBoxes wTarget wCtx_matrix_clear (.prod wObst)
    (List.Mem.head _) (by decide)⟩

/-- C6 witness scene hypothesis: the witness target is clear of the
witness obstacle. -/
theorem wTarget_clear :
    ∀ b ∈ wBoxes, b.batchdetailid ≠ wCtx.data.batchdetailid →
      intersectsB (vsub wTarget (vhalf (boxOrien wCtx))) (vadd wTarget (vhalf (boxOrien wCtx)))
        (itemBoxMin wCtx b) (itemBoxMax wCtx b) = false := by
  intro b hb hid
  rcases List.mem_cons.mp hb with rfl | hb2
  · norm_num [intersectsB, itemBoxMin, itemBoxMax, itemBoxPos, adjustScale, adjustPos, swizzle,
      getRotDim, SimBox.loadHeightOf, boxOrien, vsub, vadd, vhalf, wCtx, cexSel, wObst, mkProduct,
      wTarget, SimBox.batchdetailid, SimBox.length, SimBox.width, SimBox.height, SimBox.rotation,
      SimBox.position]
  · rcases List.mem_cons.mp hb2 with rfl | h0
    · exact absurd rfl hid
    · cases h0

/-- C6 witness: the clear witness target comes back unchanged. -/
theorem resolver_identity_when_clear_witness :
    getNewPos0 wCtx wBoxes wTarget = wTarget :=
  resolver_identity_when_clear wCtx wBoxes wTarget wTarget_clear

/-- C3 (amended): the obstacle the resolver picks is the last item of the
list, in scan order, that passes the intersection test: the scanning
reduce returns a passing member and every later index fails the test. -/
theorem scan_selects_last (c : Ctx) (pMin pMax : V3) (boxes : List SimBox) (i : ℕ) (b : SimBox)
    (h : lastHit (scanPred c pMin pMax) boxes = some (i, b)) :
    b ∈ boxes ∧ scanPred c pMin pMax b = true ∧
      ∀ j (hj : j < boxes.length), i < j → scanPred c pMin pMax (boxes.get ⟨j, hj⟩) = false :=
  ⟨(lastHit_some_mem h).1, (lastHit_some_mem h).2, lastHit_is_last h⟩

/-- The first obstacle of the scan-order scene passes the test at the
target. -/
theorem c3A_passes :
    scanPred c3Ctx (vsub c3T (vhalf (boxOrien c3Ctx))) (vadd c3T (vhalf (boxOrien c3Ctx)))
      (.prod c3A) = true := by
  norm_num [scanPred, intersectsB, itemBoxMin, itemBoxMax, itemBoxPos, adjustScale, adjustPos,
    swizzle, getRotDim, SimBox.loadHeightOf, boxOrien, vsub, vadd, vhalf, c3Ctx, c3Sel, c3A,
    mkProduct, c3T, SimBox.batchdetailid, SimBox.length, SimBox.width, SimBox.height,
    SimBox.rotation, SimBox.position]

/-- The second obstacle of the scan-order scene passes the test at the
target. -/
theorem c3B_passes :
    scanPred c3Ctx (vsub c3T (vhalf (boxOrien c3Ctx))) (vadd c3T (vhalf (boxOrien c3Ctx)))
      (.prod c3B) = true := by
  norm_num [scanPred, intersectsB, itemBoxMin, itemBoxMax, itemBoxPos, adjustScale, adjustPos,
    swizzle, getRotDim, SimBox.loadHeightOf, boxOrien, vsub, vadd, vhalf, c3Ctx, c3Sel, c3B,
    mkProduct, c3T, SimBox.batchdetailid, SimBox.length, SimBox.width, SimBox.height,
    SimBox.rotation, SimBox.position]

/-- C3 counterexample: both listed obstacles pass the intersection test at
the target, yet the scanning reduce selects index 1 (the second), not
index 0 (the first). -/
theorem scan_selects_last_cex :
    scanPred c3Ctx (vsub c3T (vhalf (boxOrien c3Ctx))) (vadd c3T (vhalf (boxOrien c3Ctx)))
        (.prod c3A) = true ∧
      c3Boxes.get ⟨0, by norm_num [c3Boxes]⟩ = .prod c3A ∧
      lastHit (scanPred c3Ctx (vsub c3T (vhalf (boxOrien c3Ctx)))
        (vadd c3T (vhalf (boxOrien c3Ctx)))) c3Boxes = some (1, .prod c3B) :=
  ⟨c3A_passes, rfl, lastHit_pair_right c3B_passes⟩

/-- C3 witness: the amended selection rule checked on the two-obstacle
scene. -/
theorem scan_selects_last_witness :
    lastHit (scanPred c3Ctx (vsub c3T (vhalf (boxOrien c3Ctx)))
        (vadd c3T (vhalf (boxOrien c3Ctx)))) c3Boxes = some (1, .prod c3B) ∧
      scanPred c3Ctx (vsub c3T (vhalf (boxOrien c3Ctx))) (vadd c3T (vhalf (boxOrien c3Ctx)))
        (.prod c3B) = true :=
  ⟨lastHit_pair_right c3B_passes,
    (scan_selects_last c3Ctx _ _ c3Boxes 1 (.prod c3B) (lastHit_pair_right c3B_passes)).2.1⟩

/-- C4 (amended): after a face correction is chosen, the resolver recurses
on the corrected position against the item list with the resolved
obstacle erased, not against the full list. -/
theorem resolver_drops_resolved_obstacle (c : Ctx) (boxes : List SimBox) (posArr newPos : V3)
    (idx : ℕ) (ib : SimBox) (fid : ℕ) (v : ℚ)
    (hscan : lastHit (scanPred c (vsub newPos (vhalf (boxOrien c)))
      (vadd newPos (vhalf (boxOrien c)))) boxes = some (idx, ib))
    (hmin : minInter c posArr newPos (itemBoxMin c ib) (itemBoxMax c ib)
      (vsub newPos (vhalf (boxOrien c))) (vadd newPos (vhalf (boxOrien c))) = some (fid, v)) :
    getNewPos c boxes posArr newPos =
      getNewPos c (boxes.eraseIdx idx) posArr
        (tempPos c (itemBoxMin c ib) (itemBoxMax c ib) newPos fid) :=
  getNewPos_of_minInter_some hscan hmin

/-- The small obstacle of the dropped-obstacle scene passes the test at
the target. -/
theorem c4O1_passes :
    scanPred c4Ctx (vsub c4T (vhalf (boxOrien c4Ctx))) (vadd c4T (vhalf (boxOrien c4Ctx)))
      (.prod c4O1) = true := by
  norm_num [scanPred, intersectsB, itemBoxMin, itemBoxMax, itemBoxPos, adjustScale, adjustPos,
    swizzle, getRotDim, SimBox.loadHeightOf, boxOrien, vsub, vadd, vhalf, c4Ctx, c4Sel, c4O1,
    mkProduct, c4T, SimBox.batchdetailid, SimBox.length, SimBox.width, SimBox.height,
    SimBox.rotation, SimBox.position]

/-- Against the small obstacle the minimal correction is face 0 with
penetration 1. -/
theorem c4_min_step1 :
    minInter c4Ctx c4T c4T (itemBoxMin c4Ctx (.prod c4O1)) (itemBoxMax c4Ctx (.prod c4O1))
      (vsub c4T (vhalf (boxOrien c4Ctx))) (vadd c4T (vhalf (boxOrien c4Ctx))) = some (0, 1) := by
  norm_num [minInter, minInterStep, List.range_succ, interFace, adjPosFace, palletMinmax,
    palletMin, palletMax, adjustedContSize, itemBoxMin, itemBoxMax, itemBoxPos, adjustScale,
    adjustPos, swizzle, getRotDim, SimBox.loadHeightOf, boxOrien, vsub, vadd, vhalf, c4Ctx,
    c4Sel, c4O1, mkProduct, c4T, SimBox.batchdetailid, SimBox.length, SimBox.width,
    SimBox.height, SimBox.rotation, SimBox.position, V3.nth]

/-- C4 counterexample: the first step corrects against the small obstacle
and erases it from the list; the huge obstacle then forces the fallback
to the matrix position, which intersects the already-erased obstacle, and
that collision is never re-detected: the returned position intersects a
previously resolved obstacle. -/
theorem resolver_drops_resolved_obstacle_cex :
    getNewPos0 c4Ctx c4Boxes c4T = c4Ctx.matrixPos ∧
      SimBox.prod c4O1 ∈ c4Boxes ∧
      (SimBox.prod c4O1).batchdetailid ≠ c4Ctx.data.batchdetailid ∧
      intersectsB (vsub (getNewPos0 c4Ctx c4Boxes c4T) (vhalf (boxOrien c4Ctx)))
        (vadd (getNewPos0 c4Ctx c4Boxes c4T) (vhalf (boxOrien c4Ctx)))
        (itemBoxMin c4Ctx (.prod c4O1)) (itemBoxMax c4Ctx (.prod c4O1)) = true := by
  have hscan1 : lastHit (scanPred c4Ctx (vsub c4T (vhalf (boxOrien c4Ctx)))
      (vadd c4T (vhalf (boxOrien c4Ctx)))) c4Boxes = some (1, .prod c4O1) :=
    lastHit_pair_right c4O1_passes
  have htemp : tempPos c4Ctx (itemBoxMin c4Ctx (.prod c4O1)) (itemBoxMax c4Ctx (.prod c4O1))
      c4T 0 = ⟨-1, 1, 0⟩ := by
    norm_num [tempPos, adjPosFace, itemBoxMin, itemBoxMax, itemBoxPos, adjustScale, adjustPos,
      swizzle, getRotDim, SimBox.loadHeightOf, boxOrien, vsub, vadd, vhalf, c4Ctx, c4Sel, c4O1,
      mkProduct, c4T, SimBox.length, SimBox.width, SimBox.height, SimBox.rotation,
      SimBox.position]
  have hpo2 : scanPred c4Ctx (vsub (⟨-1, 1, 0⟩ : V3) (vhalf (boxOrien c4Ctx)))
      (vadd (⟨-1, 1, 0⟩ : V3) (vhalf (boxOrien c4Ctx))) (.prod c4O2) = true := by
    norm_num [scanPred, intersectsB, itemBoxMin, itemBoxMax, itemBoxPos, adjustScale, adjustPos,
      swizzle, getRotDim, SimBox.loadHeightOf, boxOrien, vsub, vadd, vhalf, c4Ctx, c4Sel, c4O2,
      mkProduct, SimBox.batchdetailid, SimBox.length, SimBox.width, SimBox.height,
      SimBox.rotation, SimBox.position]
  have hscan2 : lastHit (scanPred c4Ctx (vsub (⟨-1, 1, 0⟩ : V3) (vhalf (boxOrien c4Ctx)))
      (vadd (⟨-1, 1, 0⟩ : V3) (vhalf (boxOrien c4Ctx)))) [.prod c4O2] = some (0, .prod c4O2) :=
    lastHit_single_some hpo2
  have hmin2 : minInter c4Ctx c4T ⟨-1, 1, 0⟩ (itemBoxMin c4Ctx (.prod c4O2))
      (itemBoxMax c4Ctx (.prod c4O2)) (vsub (⟨-1, 1, 0⟩ : V3) (vhalf (boxOrien c4Ctx)))
      (vadd (⟨-1, 1, 0⟩ : V3) (vhalf (boxOrien c4Ctx))) = none := by
    norm_num [minInter, minInterStep, List.range_succ, interFace, adjPosFace, palletMinmax,
      palletMin, palletMax, adjustedContSize, itemBoxMin, itemBoxMax, itemBoxPos, adjustScale,
      adjustPos, swizzle, getRotDim, SimBox.loadHeightOf, boxOrien, vsub, vadd, vhalf, c4Ctx,
      c4Sel, c4O2, mkProduct, c4T, SimBox.batchdetailid, SimBox.length, SimBox.width,
      SimBox.height, SimBox.rotation, SimBox.position, V3.nth]
  have hval : getNewPos0 c4Ctx c4Boxes c4T = c4Ctx.matrixPos := by
    unfold getNewPos0
    rw [getNewPos_of_minInter_some hscan1 c4_min_step1]
    rw [show c4Boxes.eraseIdx 1 = [.prod c4O2] from rfl, htemp]
    rw [getNewPos_of_minInter_none hscan2 hmin2]
    rw [show ([.prod c4O2] : List SimBox).eraseIdx 0 = [] from rfl]
    exact getNewPos_of_scan_none rfl
  refine ⟨hval, List.mem_cons_of_mem _ (List.Mem.head _), by decide, ?_⟩
  rw [hval]
  norm_num [intersectsB, itemBoxMin, itemBoxMax, itemBoxPos, adjustScale, adjustPos, swizzle,
    getRotDim, SimBox.loadHeightOf, boxOrien, vsub, vadd, vhalf, c4Ctx, c4Sel, c4O1, mkProduct,
    SimBox.batchdetailid, SimBox.length, SimBox.width, SimBox.height, SimBox.rotation,
    SimBox.position]

/-- C4 witness: the amended recursion shape checked at the first
correction step of the dropped-obstacle scene. -/
theorem resolver_drops_resolved_obstacle_witness :
    lastHit (scanPred c4Ctx (vsub c4T (vhalf (boxOrien c4Ctx)))
        (vadd c4T (vhalf (boxOrien c4Ctx)))) c4Boxes = some (1, .prod c4O1) ∧
      getNewPos c4Ctx c4Boxes c4T c4T =
        getNewPos c4Ctx (c4Boxes.eraseIdx 1) c4T
          (tempPos c4Ctx (itemBoxMin c4Ctx (.prod c4O1)) (itemBoxMax c4Ctx (.prod c4O1)) c4T 0) :=
  ⟨lastHit_pair_right c4O1_passes,
    resolver_drops_resolved_obstacle c4Ctx c4Boxes c4T c4T 1 (.prod c4O1) 0 1
      (lastHit_pair_right c4O1_passes) c4_min_step1⟩

/-- C10: the resolver's recursion depth is bounded by the length of the
item list: with fuel at least that length, the fuel-indexed resolver
never exhausts its fuel and returns exactly getNewPos's value. -/
theorem resolver_depth_bounded (c : Ctx) (fuel : ℕ) (boxes : List SimBox)
    (h : boxes.length ≤ fuel) (posArr newPos : V3) :
    getNewPosO c fuel boxes posArr newPos = some (getNewPos c boxes posArr newPos) :=
  getNewPosO_eq c fuel boxes h posArr newPos

/-- C10 witness: termination within fuel 2 on the two-item witness scene. -/
theorem resolver_depth_bounded_witness :
    wBoxes.length ≤ 2 ∧ getNewPos wCtx wBoxes wTarget wTarget = wTarget := by
  have h := resolver_depth_bounded wCtx 2 wBoxes (by decide) wTarget wTarget
  have hO : getNewPosO wCtx 2 wBoxes wTarget wTarget = some wTarget := by
    have hscan : lastHit (scanPred wCtx (vsub wTarget (vhalf (boxOrien wCtx)))
        (vadd wTarget (vhalf (boxOrien wCtx)))) wBoxes = none := by
      refine lastHit_pair_none (scanPred_self_false wCtx _ _ _ rfl) ?_
      have hcl := wTarget_clear (.prod wObst) (List.Mem.head _) (by decide)
      simp [scanPred, hcl]
    unfold getNewPosO
    rw [hscan]
  rw [hO] at h
  exact ⟨by decide, Option.some_inj.mp h.symm⟩

/-- The box nested inside the counterexample sub-pallet, id 7. -/
def c2InnerOld : SimProduct := mkProduct 7 1 1 1 ⟨0, 0, 0⟩ 0

/-- A replacement box carrying the nested id 7 but different dimensions. -/
def c2New : SimProduct := mkProduct 7 5 5 5 ⟨0, 0, 0⟩ 0

/-- The order inside the counterexample sub-pallet. -/
def c2Order : SimOrder :=
  { orderid := 1, ordername := "", ordernumber := "", products := [c2InnerOld] }

/-- The counterexample sub-pallet, id 20, holding the nested box. -/
def c2Pal : SimPallet :=
  { batchdetailid := 20, masterid := 0, code := "", name := "", length := 10, width := 10,
    height := 10, loadlength := 10, loadwidth := 10, loadheight := 10, color := "",
    position := ⟨0, 0, 0⟩, rotation := 0, orders := [c2Order] }

/-- The counterexample batch whose only detail is the sub-pallet. -/
def c2Batch : SimBatch :=
  { batchid := 1, batchname := "", batchtype := .pallet, length := 10, width := 10, height := 10,
    loadlength := 10, loadwidth := 10, loadheight := 10, color := "", details := [.pal c2Pal] }

/-- C2 counterexample: id 7 occurs in the batch's detail tree (nested
inside the sub-pallet's order), yet setItem with a different replacement
box of id 7 returns the batch unchanged — the nested node is not
replaced. -/
theorem patch_replaces_only_top_level_cex :
    batchMentionsId c2Batch 7 = true ∧
      setItem c2Batch (.prod c2New) = c2Batch ∧
      c2New ≠ c2InnerOld :=
  ⟨by decide, rfl, by decide⟩

/-- A batch holding the same order at top level (bare), so the
replacement clause of C2 can be exercised. -/
def c2Batch2 : SimBatch :=
  { batchid := 1, batchname := "", batchtype := .pallet, length := 10, width := 10, height := 10,
    loadlength := 10, loadwidth := 10, loadheight := 10, color := "", details := [.ord c2Order] }

/-- C2 witness: the sub-pallet detail survives a box patch untouched
(nested id occurs in no bare order, so the tree is value-equal), and on
a batch with a bare order the detail count is preserved. -/
theorem patch_replaces_only_top_level_witness :
    (bareOrderMentionsId c2Batch (SimBox.prod c2New).batchdetailid = false ∧
      setItem c2Batch (.prod c2New) = c2Batch) ∧
      (setItem c2Batch2 (.prod c2New)).details.length = c2Batch2.details.length :=
  ⟨⟨by decide, patch_replaces_only_top_level.2 c2Batch c2New (by decide)⟩,
    (patch_replaces_only_top_level.1 c2Batch2 (.prod c2New)).1⟩

/-- A replacement item whose id 99 occurs nowhere in the counterexample
batch. -/
def c9Item : SimProduct := mkProduct 99 1 1 1 ⟨0, 0, 0⟩ 0

/-- C9 witness: patching an absent id is a no-op on the concrete batch. -/
theorem patch_missing_id_is_noop_witness :
    batchMentionsId c2Batch (SimBox.prod c9Item).batchdetailid = false ∧
      setItem c2Batch (.prod c9Item) = c2Batch :=
  ⟨by decide, patch_missing_id_is_noop c2Batch (.prod c9Item) (by decide)⟩

/-- The scenario box with (L, W, H) = (30, 20, 10) at rotation 0. -/
def c5Box0 : SimProduct := mkProduct 1 30 20 10 ⟨0, 0, 0⟩ 0

/-- The scenario box with (L, W, H) = (30, 20, 10) at rotation 1. -/
def c5Box1 : SimProduct := mkProduct 1 30 20 10 ⟨0, 0, 0⟩ 1

/-- C5 witness: the spec scenario, rotation codes 0 and 1 of a
30 by 20 by 10 box give extents (30, 10, 20) and (20, 10, 30). -/
theorem getRotDim_matches_spec_witness :
    (0 : ℚ) < 30 ∧ getRotDim (.prod c5Box0) = ⟨30, 10, 20⟩ ∧
      getRotDim (.prod c5Box1) = ⟨20, 10, 30⟩ := by
  have h0 := (getRotDim_matches_spec (.prod c5Box0) (by decide) (by decide) (by decide)
    (by decide)).1
  have h1 := (getRotDim_matches_spec (.prod c5Box1) (by decide) (by decide) (by decide)
    (by decide)).1
  refine ⟨by decide, ?_, ?_⟩
  · rw [h0]
    norm_num [rotDimOfSpec, SimBox.length, SimBox.height, SimBox.width, SimBox.loadHeightOf,
      SimBox.rotation, c5Box0, mkProduct]
  · rw [h1]
    norm_num [rotDimOfSpec, SimBox.length, SimBox.height, SimBox.width, SimBox.loadHeightOf,
      SimBox.rotation, c5Box1, mkProduct]

/-- A concrete context with render scale 2 for the scale-conversion
witness. -/
def c7Ctx : Ctx :=
  { renderScale := 2, contSize := ⟨10, 10, 10⟩, data := .prod c5Box0, matrixPos := ⟨0, 0, 0⟩ }

/-- C7 witness: at render scale 2 the scale conversions and the corner
conversions invert each other on a concrete vector. -/
theorem scale_conversions_inverse_witness :
    (0 : ℚ) < c7Ctx.renderScale ∧
      readjustScale c7Ctx (adjustScale c7Ctx ⟨3, 4, 5⟩) = ⟨3, 4, 5⟩ ∧
      readjustPos c7Ctx (adjustPos c7Ctx ⟨3, 4, 5⟩ ⟨2, 2, 2⟩) ⟨2, 2, 2⟩ = ⟨3, 4, 5⟩ :=
  ⟨by decide,
    ((scale_conversions_inverse c7Ctx (by decide)).1 ⟨3, 4, 5⟩).1,
    ((scale_conversions_inverse c7Ctx (by decide)).2 ⟨3, 4, 5⟩ ⟨2, 2, 2⟩).1⟩

/-- C8 witness: both rotation pairings are involutive at code 2. -/
theorem rotation_commands_spec_witness :
    (2 : ℕ) < 6 ∧ rotH (rotH 2) = 2 ∧ rotV (rotV 2) = 2 :=
  ⟨by decide, (rotation_commands_spec.1 2 (by decide)).1, (rotation_commands_spec.1 2 (by decide)).2⟩
